import Mathlib

/-!
Verification of the Order page of the MyJiliciousTreats bakery site
(src/src/pages/Order.tsx), shallowly embedded in Lean 4.

Conventions of the embedding:
* JS numbers holding quantities and stock counts are modelled as `Int`
  (the code compares them with `<`, `<=`, `>=` only).
* Prices are modelled as `Option ℚ`: `none` stands for a missing/invalid
  price, and the coercion `Number(item.price || 0)` becomes `Option.getD 0`.
* Calendar days are modelled as natural numbers counting days from a fixed
  Sunday epoch, so `d % 7` equals JavaScript's `Date.getDay()` for that day.
* Fallible operations (a JS `TypeError`) return `Option`.
-/

/-- MenuItem as read from the menu catalog (only the fields the order page
inspects: id, name, price, madeToOrder, stock). -/
structure MenuItem where
  id : String
  name : String
  price : Option ℚ
  madeToOrder : Bool
  stock : Int
deriving DecidableEq

/-- CartItem, the cart line type of Order.tsx (id, name, price, quantity). -/
structure CartItem where
  id : String
  name : String
  price : Option ℚ
  quantity : Int
deriving DecidableEq

/-- Result record of `formatOrderDetails`. -/
structure OrderDetails where
  inStockItems : List CartItem
  madeToOrderItems : List CartItem
  cartTotal : ℚ
deriving DecidableEq

/-- The helper `formatOrderDetails(cart, menuItems)` of Order.tsx: filters the
cart into lines whose menu item exists and is not made-to-order, lines whose
menu item exists and is made-to-order, and reduces the whole cart to a total of
`Number(item.price || 0) * item.quantity`. -/
def formatOrderDetails (cart : List CartItem) (menuItems : List MenuItem) : OrderDetails :=
  let inStockItems := cart.filter fun item =>
    match menuItems.find? (fun mi => mi.id == item.id) with
    | some menuItem => !menuItem.madeToOrder
    | none => false
  let madeToOrderItems := cart.filter fun item =>
    match menuItems.find? (fun mi => mi.id == item.id) with
    | some menuItem => menuItem.madeToOrder
    | none => false
  let cartTotal := cart.foldl (fun total item => total + (item.price.getD 0) * (item.quantity : ℚ)) 0
  ⟨inStockItems, madeToOrderItems, cartTotal⟩

/-- The `addToCart(item)` handler of Order.tsx.  It rejects (cart unchanged)
when the item is not made-to-order and out of stock, or when the line already
in the cart has reached the stock; otherwise it increments the existing line
or appends a fresh line with quantity 1. -/
def addToCart (item : MenuItem) (cart : List CartItem) : List CartItem :=
  let existingItem := cart.find? fun c => c.id == item.id
  if !item.madeToOrder && decide (item.stock ≤ 0) then
    cart
  else if !item.madeToOrder &&
      (match existingItem with
       | some e => decide (e.quantity ≥ item.stock)
       | none => false) then
    cart
  else
    match existingItem with
    | some _ => cart.map fun c =>
        if c.id == item.id then { c with quantity := c.quantity + 1 } else c
    | none => cart ++ [{ id := item.id, name := item.name, price := item.price, quantity := 1 }]

/-- The `removeFromCart(id)` handler of Order.tsx: drops every line whose id
matches. -/
def removeFromCart (id : String) (cart : List CartItem) : List CartItem :=
  cart.filter fun item => !(item.id == id)

/-- The `updateQuantity(id, quantity)` handler of Order.tsx.  A quantity below
1 delegates to `removeFromCart`.  Otherwise the menu item is looked up; if the
lookup fails the code dereferences `undefined` (`menuItem!.stock`), modelled
as `none`.  A non-made-to-order item with `quantity > stock` leaves the cart
unchanged; otherwise every line with the id gets the new quantity. -/
def updateQuantity (menuItems : List MenuItem) (id : String) (quantity : Int)
    (cart : List CartItem) : Option (List CartItem) :=
  if quantity < 1 then
    some (removeFromCart id cart)
  else
    match menuItems.find? (fun mi => mi.id == id) with
    | none => none
    | some menuItem =>
      if !menuItem.madeToOrder && decide (quantity > menuItem.stock) then
        some cart
      else
        some (cart.map fun c => if c.id == id then { c with quantity := quantity } else c)

/-- The URL-parameter `useEffect` of Order.tsx: when the `item` search
parameter names a menu item that is not yet in the cart, a line with
quantity 1 is appended, with no stock check at all. -/
def urlItemAdd (menuItems : List MenuItem) (itemId : Option String)
    (cart : List CartItem) : List CartItem :=
  match itemId with
  | none => cart
  | some id =>
    match menuItems.find? (fun mi => mi.id == id) with
    | none => cart
    | some menuItem =>
      if cart.any (fun c => c.id == id) then cart
      else cart ++ [{ id := menuItem.id, name := menuItem.name, price := menuItem.price, quantity := 1 }]

/-- Sum of the quantities of all cart lines referencing a given item id. -/
def sumQty : List CartItem → String → Int
  | [], _ => 0
  | c :: cs, x => (if c.id == x then c.quantity else 0) + sumQty cs x

/-- The stock invariant of the spec's data model: for every non-made-to-order
menu item, the quantities in the cart referencing it sum to at most its
stock. -/
def stockInvariant (menuItems : List MenuItem) (cart : List CartItem) : Prop :=
  ∀ mi ∈ menuItems, mi.madeToOrder = false → sumQty cart mi.id ≤ mi.stock

instance (menuItems : List MenuItem) (cart : List CartItem) :
    Decidable (stockInvariant menuItems cart) := by
  unfold stockInvariant; infer_instance

/-- A point in time, as Order.tsx uses it: the calendar day (counted from a
Sunday epoch, so `day % 7` is JavaScript's `getDay()`) and the local hour.
Minutes never matter: the only time-of-day comparison is `currentHour >= 18`. -/
structure Instant where
  day : Nat
  hour : Nat
deriving DecidableEq

/-- The upcoming Saturday computed by Order.tsx:
`today + (6 - getDay(now) + 7) % 7` (today itself when today is Saturday). -/
def upcomingSaturday (now : Instant) : Nat :=
  now.day + (6 - now.day % 7 + 7) % 7

/-- The inner `getAvailablePickupDates(date)` of Order.tsx (closing over
`hasMadeToOrderItems`), returning whether `date` passes the eligibility rule.
Made-to-order branch: Saturdays only, on or after the upcoming Saturday, or on
or after the Saturday after next when the current day is past Wednesday or is
Wednesday at 18:00 or later.  In-stock branch: weekdays on or after
tomorrow. -/
def getAvailablePickupDates (hasMadeToOrderItems : Bool) (now : Instant) (date : Nat) : Bool :=
  if hasMadeToOrderItems then
    if !(date % 7 == 6) then
      false
    else
      let currentDay := now.day % 7
      let currentHour := now.hour
      let daysUntilNextSaturday := (6 - currentDay + 7) % 7
      let upcoming := now.day + daysUntilNextSaturday
      let saturdayAfterNext := upcoming + 7
      if currentDay > 3 || (currentDay == 3 && decide (currentHour ≥ 18)) then
        decide (date ≥ saturdayAfterNext)
      else
        decide (date ≥ upcoming)
  else
    let isWeekday := decide (1 ≤ date % 7) && decide (date % 7 ≤ 5)
    let minPickupDate := now.day + 1
    isWeekday && decide (date ≥ minPickupDate)

/-- The in-stock pickup Calendar of Order.tsx (lines 992-1008): `fromDate` is
tomorrow and the `disabled` callback rejects Saturdays and Sundays, so a date
is selectable iff it is on or after tomorrow and not a weekend day. -/
def inStockCalendarSelectable (now : Instant) (date : Nat) : Bool :=
  decide (date ≥ now.day + 1) && !(date % 7 == 0 || date % 7 == 6)

/-- The made-to-order pickup Calendar of Order.tsx (lines 1073-1093):
`fromDate` is the upcoming Saturday (computed without any cutoff check) and
the `disabled` callback rejects non-Saturdays. -/
def madeToOrderCalendarSelectable (now : Instant) (date : Nat) : Bool :=
  decide (date ≥ upcomingSaturday now) && (date % 7 == 6)

/-- The `PICKUP_TIMES` constant of Order.tsx: 9:00 AM through 5:00 PM. -/
def PICKUP_TIMES : List String :=
  ["9:00 AM", "9:30 AM", "10:00 AM", "10:30 AM",
   "11:00 AM", "11:30 AM", "12:00 PM", "12:30 PM",
   "1:00 PM", "1:30 PM", "2:00 PM", "2:30 PM",
   "3:00 PM", "3:30 PM", "4:00 PM", "4:30 PM",
   "5:00 PM"]

/-- The `getAvailablePickupTimes()` helper of Order.tsx: 9:00 AM-6:00 PM for
made-to-order carts, 12:00 PM-6:00 PM otherwise.  (It is defined but never
used by the rendered time dropdowns.) -/
def getAvailablePickupTimes (hasMadeToOrderItems : Bool) : List String :=
  if hasMadeToOrderItems then
    ["9:00 AM", "9:30 AM", "10:00 AM", "10:30 AM",
     "11:00 AM", "11:30 AM", "12:00 PM", "12:30 PM",
     "1:00 PM", "1:30 PM", "2:00 PM", "2:30 PM",
     "3:00 PM", "3:30 PM", "4:00 PM", "4:30 PM",
     "5:00 PM", "5:30 PM", "6:00 PM"]
  else
    ["12:00 PM", "12:30 PM", "1:00 PM", "1:30 PM",
     "2:00 PM", "2:30 PM", "3:00 PM", "3:30 PM",
     "4:00 PM", "4:30 PM", "5:00 PM", "5:30 PM",
     "6:00 PM"]

/-- The options rendered in the in-stock pickup-time dropdown (line 1029 of
Order.tsx): the `Select` maps over `PICKUP_TIMES`. -/
def inStockPickupTimeOptions : List String := PICKUP_TIMES

/-- The options rendered in the made-to-order pickup-time dropdown (line 1113
of Order.tsx): the `Select` also maps over `PICKUP_TIMES`. -/
def madeToOrderPickupTimeOptions : List String := PICKUP_TIMES

/-- Name of the half-hour slot `n` (counting half hours from midnight) in the
12-hour clock format Order.tsx uses, e.g. slot 18 is "9:00 AM", slot 24 is
"12:00 PM", slot 36 is "6:00 PM". -/
def halfHourSlot (n : Nat) : String :=
  let h := n / 2
  let mins := if n % 2 == 0 then "00" else "30"
  let h12 := if h % 12 == 0 then 12 else h % 12
  let ampm := if h < 12 then "AM" else "PM"
  toString h12 ++ ":" ++ mins ++ " " ++ ampm

/-- The half-hour grid from slot `a` to slot `b` inclusive. -/
def halfHourGrid (a b : Nat) : List String :=
  (List.range (b + 1 - a)).map fun i => halfHourSlot (a + i)

/-- The values held by the order form (react-hook-form state).  Fields the
user has not filled are `none`; dates are calendar days as in `Instant`. -/
structure OrderFormValues where
  name : String
  email : String
  phone : String
  inStockPickupDate : Option Nat
  inStockPickupTime : Option String
  madeToOrderPickupDate : Option Nat
  madeToOrderPickupTime : Option String
  specialInstructions : Option String
deriving DecidableEq

/-- Test of the phone regex of Order.tsx, `^\d{3}-\d{3}-\d{4}$`. -/
def phoneRegexMatches (s : String) : Bool :=
  match s.toList with
  | [a, b, c, d1, e, f, g, d2, h, i, j, k] =>
    a.isDigit && b.isDigit && c.isDigit && (d1 == '-') &&
    e.isDigit && f.isDigit && g.isDigit && (d2 == '-') &&
    h.isDigit && i.isDigit && j.isDigit && k.isDigit
  | _ => false

/-- The base `orderFormSchema` zod object of Order.tsx.  Whether a string
passes zod's `.email()` check is abstracted as the parameter `emailOk` (an
external library predicate); all other rules are embedded directly.  Note the
schema declares all four pickup fields as required (`z.date`/`z.string` with
a `required_error`, not `.optional()`). -/
def orderFormSchemaValid (emailOk : String → Bool) (v : OrderFormValues) : Bool :=
  (decide (v.name.length ≥ 2) && decide (v.name.trim.length > 0)) &&
  (emailOk v.email && decide (v.email.trim.length > 0)) &&
  (decide (v.phone.length ≥ 12) && decide (v.phone.length ≤ 12) &&
    decide (v.phone.trim.length > 0) && phoneRegexMatches v.phone) &&
  v.inStockPickupDate.isSome && v.inStockPickupTime.isSome &&
  v.madeToOrderPickupDate.isSome && v.madeToOrderPickupTime.isSome

/-- The full validation schema built by `createValidationSchema()` of
Order.tsx: the base schema refined by the cart rules — non-empty cart, and a
pickup date/time pair for each non-empty sub-order. -/
def createValidationSchemaValid (emailOk : String → Bool) (menuItems : List MenuItem)
    (cart : List CartItem) (v : OrderFormValues) : Bool :=
  orderFormSchemaValid emailOk v &&
  (!(cart.length == 0)) &&
  (if (formatOrderDetails cart menuItems).inStockItems.length > 0 then
    v.inStockPickupDate.isSome && v.inStockPickupTime.isSome
  else true) &&
  (if (formatOrderDetails cart menuItems).madeToOrderItems.length > 0 then
    v.madeToOrderPickupDate.isSome && v.madeToOrderPickupTime.isSome
  else true)

/-- Outcome of one run of a send (emailjs) or of the order-log write
(`addOrder`). -/
inductive SendResult where
  | ok
  | failed
deriving DecidableEq

/-- True exactly on `SendResult.ok`. -/
def SendResult.succeeded : SendResult → Bool
  | .ok => true
  | .failed => false

/-- Observable outcome of one invocation of the `onSubmit` handler. -/
structure SubmitOutcome where
  emailsAttempted : Bool
  orderLogAttempted : Bool
  orderRecorded : Bool
  cartAfter : List CartItem
  formCleared : Bool
deriving DecidableEq

/-- The `onSubmit` handler of Order.tsx (lines 445-544).  It returns early
when a submission is in flight or the cart is empty.  Otherwise the two
email sends run under `Promise.all`: if either fails the `catch` branch runs
and neither the order-log write nor the cart/form reset happens.  If both
succeed, `addOrder` runs; only when it also succeeds are the form reset and
the cart cleared. -/
def onSubmitModel (isSubmitting : Bool) (cart : List CartItem)
    (customerSend bakerySend orderLogWrite : SendResult) : SubmitOutcome :=
  if isSubmitting || cart.length == 0 then
    ⟨false, false, false, cart, false⟩
  else
    match customerSend, bakerySend with
    | .ok, .ok =>
      match orderLogWrite with
      | .ok => ⟨true, true, true, [], true⟩
      | .failed => ⟨true, true, false, cart, false⟩
    | _, _ => ⟨true, false, false, cart, false⟩

/-- The `<form onSubmit={...}>` handler of Order.tsx (lines 903-908): it
prevents the default event, reads the raw values with `form.getValues()`, and
calls `onSubmit` directly — it never invokes the resolver built from
`createValidationSchema`, so no validation gates this path. -/
def formSubmitHandler (isSubmitting : Bool) (cart : List CartItem)
    (formValues : OrderFormValues)
    (customerSend bakerySend orderLogWrite : SendResult) : SubmitOutcome :=
  onSubmitModel isSubmitting cart customerSend bakerySend orderLogWrite

/-- One user-driven cart mutation of Order.tsx.  A `setQuantity` whose menu
lookup fails throws in the source before `setCart` runs, so the cart state is
unchanged there; `applyCartOp` reflects that with `Option.getD`. -/
inductive CartOp where
  | add (item : MenuItem)
  | remove (id : String)
  | setQuantity (id : String) (q : Int)
  | urlAdd (itemId : Option String)

/-- Apply one cart operation to the cart state. -/
def applyCartOp (menuItems : List MenuItem) (cart : List CartItem) : CartOp → List CartItem
  | .add item => addToCart item cart
  | .remove id => removeFromCart id cart
  | .setQuantity id q => (updateQuantity menuItems id q cart).getD cart
  | .urlAdd itemId => urlItemAdd menuItems itemId cart

/-- Apply a sequence of cart operations from left to right. -/
def applyCartOps (menuItems : List MenuItem) (cart : List CartItem) : List CartOp → List CartItem
  | [] => cart
  | op :: ops => applyCartOps menuItems (applyCartOp menuItems cart op) ops

/-- Side conditions under which an operation keeps the stock invariant: items
handed to `addToCart` come from the menu (true of every call site), and a
URL-parameter add only targets items that are made-to-order or have stock
left — the effect itself never checks stock. -/
def cartOpAllowed (menuItems : List MenuItem) : CartOp → Bool
  | .add item => decide (item ∈ menuItems)
  | .remove _ => true
  | .setQuantity _ _ => true
  | .urlAdd none => true
  | .urlAdd (some id) =>
    match menuItems.find? (fun mi => mi.id == id) with
    | some mi => mi.madeToOrder || decide (1 ≤ mi.stock)
    | none => true

/-- Well-formedness of a cart state: line ids are pairwise distinct, every
quantity is at least 1, and the stock invariant holds. -/
def CartWF (menuItems : List MenuItem) (cart : List CartItem) : Prop :=
  (cart.map fun c => c.id).Nodup ∧ (∀ c ∈ cart, 1 ≤ c.quantity) ∧ stockInvariant menuItems cart

/-- Fixtures for the C1 and C2 analyses: a one-item menu with stock, the
corresponding one-line cart, and a form state whose name is empty (violating
the name rule under any reading). -/
def menuC1 : List MenuItem := [⟨"croissant", "Croissant", some 4, false, 5⟩]

/-- One-line cart over `menuC1`. -/
def cartC1 : List CartItem := [⟨"croissant", "Croissant", some 4, 1⟩]

/-- Form state with an empty customer name and missing made-to-order pickup
fields: it fails `createValidationSchemaValid` for every email predicate. -/
def formC1 : OrderFormValues :=
  ⟨"", "a@b.com", "555-123-4567", some 9, some "12:00 PM", none, none, none⟩

/-- Menu consisting of a single out-of-stock, non-made-to-order item. -/
def menuOutOfStock : List MenuItem := [⟨"brioche", "Brioche", some 6, false, 0⟩]

/-- Two-item menu used to witness the amended C2 statement. -/
def menuW2 : List MenuItem := [⟨"a", "A", some 2, false, 3⟩, ⟨"b", "B", none, true, 0⟩]

/-- Operation sequence exercising every cart operation over `menuW2`. -/
def opsW2 : List CartOp :=
  [.urlAdd (some "a"), .add ⟨"a", "A", some 2, false, 3⟩, .setQuantity "a" 3,
   .add ⟨"b", "B", none, true, 0⟩, .setQuantity "a" 99, .remove "b", .urlAdd none]

/-- One-item menu used to witness C8. -/
def menuW8 : List MenuItem := [⟨"a", "A", none, false, 5⟩]

/-- Two-line cart used to witness C8. -/
def cartW8 : List CartItem := [⟨"a", "A", none, 2⟩, ⟨"c", "C", none, 1⟩]

/-- One-item menu used to witness C10. -/
def menuW10 : List MenuItem := [⟨"a", "A", some 2, false, 5⟩]

/-- Cart with one matched line and one orphan line used to witness C10. -/
def cartW10 : List CartItem := [⟨"a", "A", some 2, 1⟩, ⟨"ghost", "Ghost", some 3, 2⟩]

lemma sumQty_nonneg (x : String) :
    ∀ cart : List CartItem, (∀ c ∈ cart, 1 ≤ c.quantity) → 0 ≤ sumQty cart x := by
  intro cart
  induction cart with
  | nil => intro _; simp [sumQty]
  | cons c cs ih =>
    intro h
    have h1 : (1 : Int) ≤ c.quantity := h c (List.mem_cons_self _ _)
    have h2 : 0 ≤ sumQty cs x := ih fun d hd => h d (List.mem_cons_of_mem _ hd)
    cases hc : (c.id == x) <;> simp [sumQty, hc] <;> omega

lemma sumQty_append (l1 l2 : List CartItem) (x : String) :
    sumQty (l1 ++ l2) x = sumQty l1 x + sumQty l2 x := by
  induction l1 with
  | nil => simp [sumQty]
  | cons c cs ih => simp [sumQty, ih, add_assoc]

lemma sumQty_eq_zero (x : String) :
    ∀ cart : List CartItem, (∀ c ∈ cart, (c.id == x) = false) → sumQty cart x = 0 := by
  intro cart
  induction cart with
  | nil => intro _; simp [sumQty]
  | cons c cs ih =>
    intro h
    have hc := h c (List.mem_cons_self _ _)
    have hcs := ih fun d hd => h d (List.mem_cons_of_mem _ hd)
    simp [sumQty, hc, hcs]

lemma sumQty_of_find?_none (x : String) (cart : List CartItem)
    (h : cart.find? (fun c => c.id == x) = none) : sumQty cart x = 0 := by
  refine sumQty_eq_zero x cart fun c hc => ?_
  have := List.find?_eq_none.mp h c hc
  simpa using this

lemma sumQty_of_any_eq_false (x : String) (cart : List CartItem)
    (h : cart.any (fun c => c.id == x) = false) : sumQty cart x = 0 := by
  refine sumQty_eq_zero x cart fun c hc => ?_
  have := List.any_eq_false.mp h c hc
  simpa using this

lemma sumQty_of_find?_some (x : String) :
    ∀ cart : List CartItem, (cart.map fun c => c.id).Nodup →
      ∀ e, cart.find? (fun c => c.id == x) = some e → sumQty cart x = e.quantity := by
  intro cart
  induction cart with
  | nil => intro _ e he; simp at he
  | cons c cs ih =>
    intro hnd e he
    simp only [List.map_cons, List.nodup_cons] at hnd
    rw [List.find?_cons] at he
    cases hcx : (c.id == x) with
    | true =>
      simp only [hcx] at he
      have hce : c = e := by simpa using he
      have hx : c.id = x := by simpa using hcx
      have hzero : sumQty cs x = 0 := by
        refine sumQty_eq_zero x cs fun d hd => ?_
        have hne : d.id ≠ x := by
          intro hdx
          have hmem : d.id ∈ cs.map fun q => q.id := List.mem_map_of_mem _ hd
          rw [hdx, ← hx] at hmem
          exact hnd.1 hmem
        simp [hne]
      subst hce
      simp [sumQty, hcx, hzero]
    | false =>
      simp only [hcx] at he
      simp [sumQty, hcx, ih hnd.2 e he]

lemma sumQty_map_on_id (y x : String) (f : Int → Int) :
    ∀ cart : List CartItem, (cart.map fun c => c.id).Nodup →
      sumQty (cart.map fun c => if c.id == y then { c with quantity := f c.quantity } else c) x =
        if x = y then
          (match cart.find? (fun c => c.id == y) with
           | some e => f e.quantity
           | none => 0)
        else sumQty cart x := by
  intro cart
  induction cart with
  | nil => intro _; by_cases hxy : x = y <;> simp [sumQty, hxy]
  | cons c cs ih =>
    intro hnd
    simp only [List.map_cons, List.nodup_cons] at hnd
    have ihcs := ih hnd.2
    simp only [List.map_cons, sumQty]
    rw [ihcs, List.find?_cons]
    cases hcy : (c.id == y) with
    | true =>
      have hcyeq : c.id = y := by simpa using hcy
      have hfind : cs.find? (fun d => d.id == y) = none := by
        refine List.find?_eq_none.mpr fun d hd => ?_
        intro hdy
        have hdyeq : d.id = y := by simpa using hdy
        have hmem : d.id ∈ cs.map fun q => q.id := List.mem_map_of_mem _ hd
        rw [hdyeq, ← hcyeq] at hmem
        exact hnd.1 hmem
      by_cases hxy : x = y
      · have hcx : (c.id == x) = true := by simp [hcyeq, hxy]
        simp [hcy, hcx, hxy, hfind]
      · have hcx : (c.id == x) = false := by
          simp only [beq_eq_false_iff_ne, ne_eq, hcyeq]
          exact fun h => hxy h.symm
        simp [hcy, hcx, hxy]
    | false =>
      by_cases hxy : x = y
      · have hcx : (c.id == x) = false := by
          cases hh : (c.id == x) with
          | true =>
            have hcxx : c.id = x := by simpa using hh
            rw [hcxx, hxy] at hcy
            simp at hcy
          | false => rfl
        simp [hcy, hcx, hxy]
      · cases hcx : (c.id == x) <;> simp [hcy, hcx, hxy]

lemma ids_map_on_id (y : String) (f : Int → Int) (cart : List CartItem) :
    ((cart.map fun c => if c.id == y then { c with quantity := f c.quantity } else c).map fun c => c.id) =
      cart.map fun c => c.id := by
  induction cart with
  | nil => simp
  | cons c cs ih =>
    simp only [List.map_cons]
    rw [ih]
    congr 1
    cases hc : (c.id == y) <;> simp [hc]

lemma menu_id_unique :
    ∀ l : List MenuItem, (l.map fun m => m.id).Nodup →
      ∀ mi ∈ l, ∀ mj ∈ l, mi.id = mj.id → mi = mj := by
  intro l
  induction l with
  | nil => simp
  | cons m ms ih =>
    intro h mi hmi mj hmj heq
    simp only [List.map_cons, List.nodup_cons] at h
    rcases List.mem_cons.mp hmi with rfl | hmi2
    · rcases List.mem_cons.mp hmj with rfl | hmj2
      · rfl
      · exact absurd (heq ▸ List.mem_map_of_mem (fun x => x.id) hmj2) h.1
    · rcases List.mem_cons.mp hmj with rfl | hmj2
      · exact absurd (heq ▸ List.mem_map_of_mem (fun x => x.id) hmi2) h.1
      · exact ih h.2 mi hmi2 mj hmj2 heq

lemma sumQty_removeFromCart (y x : String) :
    ∀ cart : List CartItem, sumQty (removeFromCart y cart) x = if x = y then 0 else sumQty cart x := by
  intro cart
  induction cart with
  | nil => by_cases hxy : x = y <;> simp [removeFromCart, sumQty, hxy]
  | cons c cs ih =>
    simp only [removeFromCart, List.filter_cons] at ih ⊢
    cases hcy : (c.id == y) with
    | true =>
      have hcyeq : c.id = y := by simpa using hcy
      rw [if_neg (by simp [hcy])]
      rw [ih]
      by_cases hxy : x = y
      · simp [hxy]
      · have hcx : (c.id == x) = false := by
          simp only [beq_eq_false_iff_ne, ne_eq, hcyeq]
          exact fun h => hxy h.symm
        simp [hxy, sumQty, hcx]
    | false =>
      rw [if_pos (by simp [hcy])]
      simp only [sumQty]
      rw [ih]
      by_cases hxy : x = y
      · simp [hxy, hcy]
      · simp [hxy]

lemma CartWF_removeFromCart (menuItems : List MenuItem) (y : String) (cart : List CartItem)
    (hwf : CartWF menuItems cart) : CartWF menuItems (removeFromCart y cart) := by
  obtain ⟨hnd, hpos, hinv⟩ := hwf
  refine ⟨?_, ?_, ?_⟩
  · exact List.Nodup.sublist ((List.filter_sublist cart).map fun c => c.id) hnd
  · intro c hc
    exact hpos c (List.mem_of_mem_filter hc)
  · intro mi hmi hmto
    rw [sumQty_removeFromCart]
    by_cases hxy : mi.id = y
    · simp only [if_pos hxy]
      exact le_trans (sumQty_nonneg mi.id cart hpos) (hinv mi hmi hmto)
    · simp only [if_neg hxy]
      exact hinv mi hmi hmto

lemma CartWF_updateQuantity (menuItems : List MenuItem) (id : String) (q : Int)
    (cart : List CartItem) (hmenu : (menuItems.map fun m => m.id).Nodup)
    (hwf : CartWF menuItems cart) :
    CartWF menuItems ((updateQuantity menuItems id q cart).getD cart) := by
  obtain ⟨hnd, hpos, hinv⟩ := hwf
  unfold updateQuantity
  by_cases hq : q < 1
  · simp only [if_pos hq, Option.getD_some]
    exact CartWF_removeFromCart menuItems id cart ⟨hnd, hpos, hinv⟩
  · simp only [if_neg hq]
    cases hfind : menuItems.find? (fun mi => mi.id == id) with
    | none =>
      exact ⟨hnd, hpos, hinv⟩
    | some mi2 =>
      simp only []
      by_cases hguard : (!mi2.madeToOrder && decide (q > mi2.stock)) = true
      · simp only [if_pos hguard, Option.getD_some]
        exact ⟨hnd, hpos, hinv⟩
      · simp only [if_neg hguard, Option.getD_some]
        have hmi2 : mi2 ∈ menuItems := List.mem_of_find?_eq_some hfind
        have hmi2id : mi2.id = id := by simpa using List.find?_some hfind
        refine ⟨?_, ?_, ?_⟩
        · have hids := ids_map_on_id id (fun _ => q) cart
          simp only [] at hids
          rw [hids]
          exact hnd
        · intro c hc
          rcases List.mem_map.mp hc with ⟨d, hd, rfl⟩
          have hdq := hpos d hd
          cases hdy : (d.id == id) <;> simp [hdy] <;> omega
        · intro mi hmi hmto
          have hsum := sumQty_map_on_id id mi.id (fun _ => q) cart hnd
          simp only [] at hsum
          rw [hsum]
          by_cases hxy : mi.id = id
          · simp only [if_pos hxy]
            have hmieq : mi = mi2 :=
              menu_id_unique menuItems hmenu mi hmi mi2 hmi2 (by rw [hxy, hmi2id])
            have hqle : q ≤ mi.stock := by
              simp only [Bool.and_eq_true, Bool.not_eq_true', decide_eq_true_eq] at hguard
              rw [hmieq] at hmto
              have : ¬(q > mi2.stock) := fun hgt => hguard ⟨hmto, hgt⟩
              rw [hmieq]
              omega
            have hstock : (0 : Int) ≤ mi.stock :=
              le_trans (sumQty_nonneg mi.id cart hpos) (hinv mi hmi hmto)
            cases hcf : cart.find? (fun c => c.id == id) <;> simp [hcf] <;> omega
          · simp only [if_neg hxy]
            exact hinv mi hmi hmto

lemma CartWF_addToCart (menuItems : List MenuItem) (item : MenuItem) (cart : List CartItem)
    (hmenu : (menuItems.map fun m => m.id).Nodup) (hitem : item ∈ menuItems)
    (hwf : CartWF menuItems cart) : CartWF menuItems (addToCart item cart) := by
  obtain ⟨hnd, hpos, hinv⟩ := hwf
  simp only [addToCart]
  cases hfind : cart.find? (fun c => c.id == item.id) with
  | some e =>
    simp only []
    by_cases h1 : (!item.madeToOrder && decide (item.stock ≤ 0)) = true
    · simp only [if_pos h1]
      exact ⟨hnd, hpos, hinv⟩
    · simp only [if_neg h1]
      by_cases h2 : (!item.madeToOrder && decide (e.quantity ≥ item.stock)) = true
      · simp only [if_pos h2]
        exact ⟨hnd, hpos, hinv⟩
      · simp only [if_neg h2]
        refine ⟨?_, ?_, ?_⟩
        · have hids := ids_map_on_id item.id (fun t => t + 1) cart
          simp only [] at hids
          rw [hids]
          exact hnd
        · intro c hc
          rcases List.mem_map.mp hc with ⟨d, hd, rfl⟩
          have hdq := hpos d hd
          cases hdy : (d.id == item.id) <;> simp [hdy] <;> omega
        · intro mi hmi hmto
          have hsum := sumQty_map_on_id item.id mi.id (fun t => t + 1) cart hnd
          simp only [] at hsum
          rw [hsum]
          by_cases hxy : mi.id = item.id
          · simp only [if_pos hxy]
            have hmieq : mi = item := menu_id_unique menuItems hmenu mi hmi item hitem hxy
            have heq : e.quantity < item.stock := by
              simp only [Bool.and_eq_true, Bool.not_eq_true', decide_eq_true_eq] at h2
              rw [hmieq] at hmto
              have : ¬(e.quantity ≥ item.stock) := fun hge => h2 ⟨hmto, hge⟩
              omega
            rw [hfind]
            simp only []
            rw [hmieq]
            show e.quantity + 1 ≤ item.stock
            omega
          · simp only [if_neg hxy]
            exact hinv mi hmi hmto
  | none =>
    simp only []
    by_cases h1 : (!item.madeToOrder && decide (item.stock ≤ 0)) = true
    · simp only [if_pos h1]
      exact ⟨hnd, hpos, hinv⟩
    · simp only [if_neg h1]
      have h2 : (!item.madeToOrder && false) ≠ true := by simp
      simp only [if_neg h2]
      have hnotin : item.id ∉ cart.map fun c => c.id := by
        intro hmem
        rcases List.mem_map.mp hmem with ⟨d, hd, hdid⟩
        have := List.find?_eq_none.mp hfind d hd
        simp [hdid] at this
      refine ⟨?_, ?_, ?_⟩
      · rw [List.map_append]
        rw [List.nodup_append]
        refine ⟨hnd, List.nodup_singleton _, ?_⟩
        intro a ha hb
        simp only [List.map_cons, List.map_nil, List.mem_singleton] at hb
        rw [hb] at ha
        exact hnotin ha
      · intro c hc
        rcases List.mem_append.mp hc with hc1 | hc2
        · exact hpos c hc1
        · simp only [List.mem_singleton] at hc2
          rw [hc2]
      · intro mi hmi hmto
        rw [sumQty_append]
        by_cases hxy : mi.id = item.id
        · have hmieq : mi = item := menu_id_unique menuItems hmenu mi hmi item hitem hxy
          have hzero : sumQty cart mi.id = 0 := by
            refine sumQty_of_find?_none mi.id cart ?_
            rw [hxy]
            exact hfind
          have hsingle : sumQty [⟨item.id, item.name, item.price, 1⟩] mi.id = 1 := by
            simp [sumQty, hxy]
          rw [hzero, hsingle]
          have h1' : ¬(item.madeToOrder = false ∧ item.stock ≤ 0) := by
            simpa using h1
          have hmto' : item.madeToOrder = false := by rw [← hmieq]; exact hmto
          have : ¬(item.stock ≤ 0) := fun hle => h1' ⟨hmto', hle⟩
          rw [hmieq]
          omega
        · have hsingle : sumQty [⟨item.id, item.name, item.price, 1⟩] mi.id = 0 := by
            have : item.id ≠ mi.id := fun h => hxy h.symm
            simp [sumQty, this]
          rw [hsingle]
          rw [add_zero]
          exact hinv mi hmi hmto

lemma CartWF_urlItemAdd (menuItems : List MenuItem) (itemId : Option String)
    (cart : List CartItem) (hmenu : (menuItems.map fun m => m.id).Nodup)
    (hallow : cartOpAllowed menuItems (.urlAdd itemId) = true)
    (hwf : CartWF menuItems cart) : CartWF menuItems (urlItemAdd menuItems itemId cart) := by
  obtain ⟨hnd, hpos, hinv⟩ := hwf
  cases itemId with
  | none => exact ⟨hnd, hpos, hinv⟩
  | some id =>
    simp only [urlItemAdd]
    cases hfind : menuItems.find? (fun mi => mi.id == id) with
    | none =>
      exact ⟨hnd, hpos, hinv⟩
    | some mi2 =>
      simp only []
      by_cases hany : (cart.any fun c => c.id == id) = true
      · simp only [if_pos hany]
        exact ⟨hnd, hpos, hinv⟩
      · simp only [if_neg hany]
        have hany' : (cart.any fun c => c.id == id) = false := by
          cases h : cart.any fun c => c.id == id
          · rfl
          · exact absurd h hany
        have hmi2 : mi2 ∈ menuItems := List.mem_of_find?_eq_some hfind
        have hmi2id : mi2.id = id := by simpa using List.find?_some hfind
        have hstock : mi2.madeToOrder = true ∨ 1 ≤ mi2.stock := by
          simp only [cartOpAllowed] at hallow
          rw [hfind] at hallow
          simpa using hallow
        have hnotin : mi2.id ∉ cart.map fun c => c.id := by
          intro hmem
          rcases List.mem_map.mp hmem with ⟨d, hd, hdid⟩
          have := List.any_eq_false.mp hany' d hd
          rw [hmi2id] at hdid
          simp [hdid] at this
        refine ⟨?_, ?_, ?_⟩
        · rw [List.map_append]
          rw [List.nodup_append]
          refine ⟨hnd, List.nodup_singleton _, ?_⟩
          intro a ha hb
          simp only [List.map_cons, List.map_nil, List.mem_singleton] at hb
          rw [hb] at ha
          exact hnotin ha
        · intro c hc
          rcases List.mem_append.mp hc with hc1 | hc2
          · exact hpos c hc1
          · simp only [List.mem_singleton] at hc2
            rw [hc2]
        · intro mi hmi hmto
          rw [sumQty_append]
          by_cases hxy : mi.id = mi2.id
          · have hmieq : mi = mi2 := menu_id_unique menuItems hmenu mi hmi mi2 hmi2 hxy
            have hzero : sumQty cart mi.id = 0 := by
              refine sumQty_of_any_eq_false mi.id cart ?_
              rw [hxy, hmi2id]
              exact hany'
            have hsingle : sumQty [⟨mi2.id, mi2.name, mi2.price, 1⟩] mi.id = 1 := by
              simp [sumQty, hxy]
            rw [hzero, hsingle]
            have hs : 1 ≤ mi2.stock := by
              rcases hstock with hmt | hs
              · rw [hmieq] at hmto
                rw [hmto] at hmt
                simp at hmt
              · exact hs
            rw [hmieq]
            omega
          · have hsingle : sumQty [⟨mi2.id, mi2.name, mi2.price, 1⟩] mi.id = 0 := by
              have : mi2.id ≠ mi.id := fun h => hxy h.symm
              simp [sumQty, this]
            rw [hsingle, add_zero]
            exact hinv mi hmi hmto

lemma CartWF_applyCartOp (menuItems : List MenuItem) (cart : List CartItem) (op : CartOp)
    (hmenu : (menuItems.map fun m => m.id).Nodup)
    (hop : cartOpAllowed menuItems op = true) (hwf : CartWF menuItems cart) :
    CartWF menuItems (applyCartOp menuItems cart op) := by
  cases op with
  | add item =>
    have hitem : item ∈ menuItems := by simpa [cartOpAllowed] using hop
    exact CartWF_addToCart menuItems item cart hmenu hitem hwf
  | remove id => exact CartWF_removeFromCart menuItems id cart hwf
  | setQuantity id q => exact CartWF_updateQuantity menuItems id q cart hmenu hwf
  | urlAdd itemId => exact CartWF_urlItemAdd menuItems itemId cart hmenu hop hwf

lemma CartWF_applyCartOps (menuItems : List MenuItem)
    (hmenu : (menuItems.map fun m => m.id).Nodup) :
    ∀ (ops : List CartOp) (cart : List CartItem), CartWF menuItems cart →
      (∀ op ∈ ops, cartOpAllowed menuItems op = true) →
      CartWF menuItems (applyCartOps menuItems cart ops) := by
  intro ops
  induction ops with
  | nil => intro cart hwf _; exact hwf
  | cons op ops ih =>
    intro cart hwf hops
    exact ih (applyCartOp menuItems cart op)
      (CartWF_applyCartOp menuItems cart op hmenu (hops op (List.mem_cons_self _ _)) hwf)
      fun o ho => hops o (List.mem_cons_of_mem _ ho)

lemma foldl_add_map (f : CartItem → ℚ) :
    ∀ (l : List CartItem) (a : ℚ), l.foldl (fun t it => t + f it) a = a + (l.map f).sum := by
  intro l
  induction l with
  | nil => intro a; simp
  | cons c cs ih =>
    intro a
    simp only [List.foldl_cons, List.map_cons, List.sum_cons]
    rw [ih]
    ring

/-- C1: the claim that submission proceeds only when every validation rule
holds is false in the code.  The form's onSubmit handler (Order.tsx lines
903-908) calls `onSubmit(form.getValues())` directly and never runs the
resolver built from `createValidationSchema`, so a form state with an empty
customer name — rejected by the validation schema for every email
well-formedness predicate — still triggers both email sends and the order-log
write whenever the cart is non-empty. -/
theorem submission_bypasses_validation :
    ∀ emailOk : String → Bool,
      createValidationSchemaValid emailOk menuC1 cartC1 formC1 = false ∧
      (formSubmitHandler false cartC1 formC1 .ok .ok .ok).emailsAttempted = true ∧
      (formSubmitHandler false cartC1 formC1 .ok .ok .ok).orderLogAttempted = true ∧
      (formSubmitHandler false cartC1 formC1 .ok .ok .ok).orderRecorded = true :=
  fun _ => ⟨rfl, rfl, rfl, rfl⟩

/-- C2 counterexample: the URL-parameter add effect performs no stock check,
so adding the out-of-stock item `brioche` through the `item` search parameter
puts quantity 1 in the cart against a stock of 0, violating the stock
invariant that held for the empty cart. -/
theorem urlAdd_violates_stock_invariant :
    stockInvariant menuOutOfStock [] ∧
    ¬ stockInvariant menuOutOfStock (urlItemAdd menuOutOfStock (some "brioche") []) := by
  constructor
  · decide
  · decide

/-- C2 (amended): starting from the empty cart, any sequence of addToCart,
updateQuantity, removeFromCart and URL-parameter adds preserves the stock
invariant, provided the menu's ids are distinct, non-made-to-order stocks are
non-negative, added items come from the menu, and every URL-parameter add
targets an item that is made-to-order or has at least one unit of stock (the
effect itself checks nothing). -/
theorem cart_operations_preserve_stock_invariant
    (menuItems : List MenuItem) (ops : List CartOp)
    (hmenu : (menuItems.map fun m => m.id).Nodup)
    (hstock : ∀ mi ∈ menuItems, mi.madeToOrder = false → 0 ≤ mi.stock)
    (hops : ∀ op ∈ ops, cartOpAllowed menuItems op = true) :
    stockInvariant menuItems (applyCartOps menuItems [] ops) := by
  refine (CartWF_applyCartOps menuItems hmenu ops [] ⟨?_, ?_, ?_⟩ hops).2.2
  · simp
  · intro c hc
    simp at hc
  · intro mi hmi hmto
    simpa [sumQty] using hstock mi hmi hmto

/-- Witness for the amended C2 statement at a concrete menu and operation
sequence. -/
theorem cart_operations_preserve_stock_invariant_witness :
    stockInvariant menuW2 (applyCartOps menuW2 [] opsW2) :=
  cart_operations_preserve_stock_invariant menuW2 opsW2 (by decide) (by decide) (by decide)

/-- C3: the submission is all-or-nothing.  The form is cleared exactly when no
submission was in flight, the cart was non-empty, both email sends succeeded
and the order-log write succeeded; the order is recorded exactly in that same
case; and on any failure the cart is left untouched. -/
theorem submission_all_or_nothing :
    ∀ (isSubmitting : Bool) (cart : List CartItem) (cs bs ow : SendResult),
      (onSubmitModel isSubmitting cart cs bs ow).formCleared =
        (!isSubmitting && !(cart.length == 0) &&
          cs.succeeded && bs.succeeded && ow.succeeded) ∧
      (onSubmitModel isSubmitting cart cs bs ow).orderRecorded =
        (onSubmitModel isSubmitting cart cs bs ow).formCleared ∧
      (onSubmitModel isSubmitting cart cs bs ow).cartAfter =
        (if (onSubmitModel isSubmitting cart cs bs ow).formCleared then [] else cart) := by
  intro isSub cart cs bs ow
  cases isSub <;> cases cart <;> cases cs <;> cases bs <;> cases ow <;> exact ⟨rfl, rfl, rfl⟩

/-- C4: the made-to-order pickup Calendar ignores the Wednesday 18:00 cutoff.
With "now" a Thursday at noon (day 4, hour 12), the upcoming Saturday (day 6)
is selectable in the Calendar, although the rule stated by the claim — and
implemented by the unused `getAvailablePickupDates`, and announced by the
page's own "Orders close Wednesday by 6pm" notice — places the earliest
eligible Saturday one week later (day 13). -/
theorem madeToOrder_calendar_ignores_cutoff :
    madeToOrderCalendarSelectable ⟨4, 12⟩ 6 = true ∧
    getAvailablePickupDates true ⟨4, 12⟩ 6 = false ∧
    getAvailablePickupDates true ⟨4, 12⟩ 13 = true := by
  refine ⟨rfl, rfl, rfl⟩

/-- C5 counterexample: with "now" a Monday (day 1), tomorrow itself (Tuesday,
day 2) is an eligible in-stock pickup date both for `getAvailablePickupDates`
and for the Calendar, although day 2 is not strictly after tomorrow — the
bound is inclusive of tomorrow, not strict. -/
theorem inStock_tomorrow_is_eligible :
    getAvailablePickupDates false ⟨1, 0⟩ 2 = true ∧
    inStockCalendarSelectable ⟨1, 0⟩ 2 = true ∧
    ¬(2 > 1 + 1) := by
  refine ⟨rfl, rfl, by decide⟩

/-- C5 (amended): a date is an eligible in-stock pickup date iff it is a
weekday (Monday through Friday) and is on or after tomorrow — equivalently,
strictly after today; the in-stock Calendar enforces exactly the same
predicate. -/
theorem inStock_dates_characterized :
    ∀ (now : Instant) (date : Nat),
      (getAvailablePickupDates false now date = true ↔
        (1 ≤ date % 7 ∧ date % 7 ≤ 5 ∧ now.day + 1 ≤ date)) ∧
      inStockCalendarSelectable now date = getAvailablePickupDates false now date := by
  intro now date
  have h7 : date % 7 < 7 := Nat.mod_lt _ (by omega)
  constructor
  · simp only [getAvailablePickupDates, if_neg Bool.false_ne_true, Bool.and_eq_true,
      decide_eq_true_eq]
    omega
  · refine Bool.eq_iff_iff.mpr ?_
    simp only [inStockCalendarSelectable, getAvailablePickupDates, if_neg Bool.false_ne_true,
      Bool.and_eq_true, decide_eq_true_eq, Bool.not_eq_true', Bool.or_eq_false_iff,
      beq_eq_false_iff_ne, ne_eq]
    omega

/-- Witness for the amended C5 statement: day 9 (a Tuesday) is eligible when
"now" is day 1 (a Monday). -/
theorem inStock_dates_characterized_witness :
    getAvailablePickupDates false ⟨1, 0⟩ 9 = true :=
  ((inStock_dates_characterized ⟨1, 0⟩ 9).1).mpr (by decide)

/-- C6 counterexample: the time dropdowns do not render the grids the claim
describes.  "6:00 PM" belongs to the 12:00 PM-6:00 PM grid that
`getAvailablePickupTimes` computes for in-stock carts, but it is not among the
options the in-stock dropdown offers; the made-to-order dropdown likewise
differs from the 9:00 AM-6:00 PM grid. -/
theorem pickup_time_options_differ_from_grids :
    inStockPickupTimeOptions ≠ getAvailablePickupTimes false ∧
    ("6:00 PM" ∈ getAvailablePickupTimes false) ∧
    ("6:00 PM" ∉ inStockPickupTimeOptions) ∧
    madeToOrderPickupTimeOptions ≠ getAvailablePickupTimes true := by
  refine ⟨by decide, by decide, by decide, by decide⟩

/-- C6 (amended): both pickup-time dropdowns offer exactly `PICKUP_TIMES`, the
fixed half-hour grid from 9:00 AM (slot 18) to 5:00 PM (slot 34) inclusive,
while the unused `getAvailablePickupTimes` computes the half-hour grids
12:00 PM-6:00 PM (slots 24-36, in-stock) and 9:00 AM-6:00 PM (slots 18-36,
made-to-order). -/
theorem pickup_time_options_characterized :
    inStockPickupTimeOptions = halfHourGrid 18 34 ∧
    madeToOrderPickupTimeOptions = halfHourGrid 18 34 ∧
    getAvailablePickupTimes false = halfHourGrid 24 36 ∧
    getAvailablePickupTimes true = halfHourGrid 18 36 := by
  refine ⟨by decide, by decide, by decide, by decide⟩

/-- C7: for every cart composition the computed total equals the sum over all
cart lines of price times quantity, a missing or invalid price counting as
zero. -/
theorem cartTotal_eq_sum :
    ∀ (cart : List CartItem) (menuItems : List MenuItem),
      (formatOrderDetails cart menuItems).cartTotal =
        (cart.map fun item => item.price.getD 0 * (item.quantity : ℚ)).sum := by
  intro cart menuItems
  simp only [formatOrderDetails]
  have h := foldl_add_map (fun item => item.price.getD 0 * (item.quantity : ℚ)) cart 0
  simp only [] at h
  rw [h, zero_add]

/-- C8: `updateQuantity` behaves as claimed for every cart and item id whose
menu lookup succeeds: a quantity below 1 produces exactly `removeFromCart`;
for a non-made-to-order item a quantity above stock leaves the cart unchanged;
otherwise every line with the id has its quantity replaced and all other lines
are untouched. -/
theorem updateQuantity_spec (menuItems : List MenuItem) (cart : List CartItem) (id : String)
    (q : Int) (mi : MenuItem)
    (hfind : menuItems.find? (fun m => m.id == id) = some mi) :
    (q < 1 → updateQuantity menuItems id q cart = some (removeFromCart id cart)) ∧
    (1 ≤ q → mi.madeToOrder = false → mi.stock < q →
      updateQuantity menuItems id q cart = some cart) ∧
    (1 ≤ q → (mi.madeToOrder = true ∨ q ≤ mi.stock) →
      updateQuantity menuItems id q cart =
        some (cart.map fun c => if c.id == id then { c with quantity := q } else c)) := by
  refine ⟨?_, ?_, ?_⟩
  · intro h1
    unfold updateQuantity
    rw [if_pos h1]
  · intro h1 h2 h3
    unfold updateQuantity
    rw [if_neg (by omega), hfind]
    simp only []
    rw [if_pos (by simp [h2]; omega)]
  · intro h1 h2
    unfold updateQuantity
    rw [if_neg (by omega), hfind]
    have hcond : ¬((!mi.madeToOrder && decide (q > mi.stock)) = true) := by
      rcases h2 with hm | hs
      · simp [hm]
      · simp
        intro _
        omega
    simp only []
    rw [if_neg hcond]

/-- Witness for C8 at concrete inputs: quantity 0 removes, quantity 9 exceeds
the stock of 5 and leaves the cart unchanged, quantity 4 replaces the line's
quantity. -/
theorem updateQuantity_spec_witness :
    updateQuantity menuW8 "a" 0 cartW8 = some (removeFromCart "a" cartW8) ∧
    updateQuantity menuW8 "a" 9 cartW8 = some cartW8 ∧
    updateQuantity menuW8 "a" 4 cartW8 =
      some (cartW8.map fun c => if c.id == "a" then { c with quantity := 4 } else c) :=
  ⟨(updateQuantity_spec menuW8 cartW8 "a" 0 ⟨"a", "A", none, false, 5⟩ rfl).1 (by decide),
   (updateQuantity_spec menuW8 cartW8 "a" 9 ⟨"a", "A", none, false, 5⟩ rfl).2.1
     (by decide) rfl (by decide),
   (updateQuantity_spec menuW8 cartW8 "a" 4 ⟨"a", "A", none, false, 5⟩ rfl).2.2
     (by decide) (Or.inr (by decide))⟩

/-- C9: submitting with an empty cart is rejected by the entry guard of
`onSubmit` before any collaborator runs: no email send is attempted, the
order-log write is not attempted, nothing is recorded, and the cart and form
state are unchanged, regardless of the in-flight flag and of how the
collaborators would have behaved. -/
theorem empty_cart_submission_rejected :
    ∀ (isSubmitting : Bool) (customerSend bakerySend orderLogWrite : SendResult),
      onSubmitModel isSubmitting [] customerSend bakerySend orderLogWrite =
        ⟨false, false, false, [], false⟩ := by
  intro isSub cs bs ow
  cases isSub <;> rfl

/-- C10: `formatOrderDetails` places a cart line in a sublist only when a menu
item with a matching id exists (non-made-to-order for the in-stock sublist,
made-to-order for the other); a line whose id matches no menu item lands in
neither sublist; yet the computed total still sums price times quantity over
every line of the cart, matched or not. -/
theorem formatOrderDetails_partition :
    ∀ (cart : List CartItem) (menuItems : List MenuItem),
      (∀ l ∈ (formatOrderDetails cart menuItems).inStockItems,
        ∃ mi, menuItems.find? (fun m => m.id == l.id) = some mi ∧ mi.madeToOrder = false) ∧
      (∀ l ∈ (formatOrderDetails cart menuItems).madeToOrderItems,
        ∃ mi, menuItems.find? (fun m => m.id == l.id) = some mi ∧ mi.madeToOrder = true) ∧
      (∀ l ∈ cart, menuItems.find? (fun m => m.id == l.id) = none →
        l ∉ (formatOrderDetails cart menuItems).inStockItems ∧
        l ∉ (formatOrderDetails cart menuItems).madeToOrderItems) ∧
      (formatOrderDetails cart menuItems).cartTotal =
        (cart.map fun item => item.price.getD 0 * (item.quantity : ℚ)).sum := by
  intro cart menuItems
  refine ⟨?_, ?_, ?_, ?_⟩
  · intro l hl
    simp only [formatOrderDetails] at hl
    rw [List.mem_filter] at hl
    cases hm : menuItems.find? (fun m => m.id == l.id) with
    | none =>
      have := hl.2
      simp [hm] at this
    | some mi =>
      refine ⟨mi, rfl, ?_⟩
      have := hl.2
      simp [hm] at this
      exact this
  · intro l hl
    simp only [formatOrderDetails] at hl
    rw [List.mem_filter] at hl
    cases hm : menuItems.find? (fun m => m.id == l.id) with
    | none =>
      have := hl.2
      simp [hm] at this
    | some mi =>
      refine ⟨mi, rfl, ?_⟩
      have := hl.2
      simp [hm] at this
      exact this
  · intro l hl hnone
    constructor
    · intro hmem
      simp only [formatOrderDetails] at hmem
      rw [List.mem_filter] at hmem
      have := hmem.2
      simp [hnone] at this
    · intro hmem
      simp only [formatOrderDetails] at hmem
      rw [List.mem_filter] at hmem
      have := hmem.2
      simp [hnone] at this
  · simp only [formatOrderDetails]
    have h := foldl_add_map (fun item => item.price.getD 0 * (item.quantity : ℚ)) cart 0
    simp only [] at h
    rw [h, zero_add]

/-- Witness for C10: the orphan line appears in neither sublist. -/
theorem formatOrderDetails_partition_witness :
    (⟨"ghost", "Ghost", some 3, 2⟩ : CartItem) ∉ (formatOrderDetails cartW10 menuW10).inStockItems ∧
    (⟨"ghost", "Ghost", some 3, 2⟩ : CartItem) ∉ (formatOrderDetails cartW10 menuW10).madeToOrderItems :=
  (formatOrderDetails_partition cartW10 menuW10).2.2.1
    ⟨"ghost", "Ghost", some 3, 2⟩ (by decide) (by decide)
